import Mathlib

/-!
Verification of the many-valued modal-logic core: lattice engine,
many-lattice interpretation, worlds and models, formula lexer/recursive
descent parsing, and the AST evaluator. Elements are opaque strings,
relations are explicit pair lists (a list stands in for the runtime set,
its order standing in for the set's scan order), and each fallible
operation returns `Except PyErr`.
-/

set_option autoImplicit false

namespace MLML

/-- Kinds of runtime errors raised by the core (messages are kept constant). -/
inductive PyErr where
  | valueError (msg : String)
  | typeError (msg : String)
  | attributeError (msg : String)
  | keyError (msg : String)
  | exception (msg : String)
  deriving DecidableEq

deriving instance DecidableEq for Except

/-- Membership test of the ordered pair (a, b) in the relation list,
embedding `is_less_than_or_equal`: `(a, b) in self.relations`. -/
def isLEb (relations : List (String × String)) (a b : String) : Bool :=
  decide ((a, b) ∈ relations)

/-- Common upper bounds of `a` and `b` among `elements`, in scan order. -/
def upperBoundsOf (elements : List String) (relations : List (String × String))
    (a b : String) : List String :=
  elements.filter (fun x => isLEb relations a x && isLEb relations b x)

/-- Common lower bounds of `a` and `b` among `elements`, in scan order. -/
def lowerBoundsOf (elements : List String) (relations : List (String × String))
    (a b : String) : List String :=
  elements.filter (fun x => isLEb relations x a && isLEb relations x b)

/-- Embeds `Lattice.join`: scan the common upper bounds for the first one
that is below every other bound; error if the bound set is empty or no
bound qualifies. -/
def joinOn (elements : List String) (relations : List (String × String))
    (a b : String) : Except PyErr String :=
  if a ∉ elements ∨ b ∉ elements then
    .error (.valueError "Elements not in the lattice.")
  else if (upperBoundsOf elements relations a b).isEmpty then
    .error (.valueError "No common upper bounds found.")
  else
    match (upperBoundsOf elements relations a b).find?
        (fun x => (upperBoundsOf elements relations a b).all
          (fun y => isLEb relations x y)) with
    | some x => .ok x
    | none => .error (.valueError "No unique Join found.")

/-- Embeds `Lattice.meet`: scan the common lower bounds for the first one
that is above every other bound; error if the bound set is empty or no
bound qualifies. -/
def meetOn (elements : List String) (relations : List (String × String))
    (a b : String) : Except PyErr String :=
  if a ∉ elements ∨ b ∉ elements then
    .error (.valueError "Elements not in the lattice.")
  else if (lowerBoundsOf elements relations a b).isEmpty then
    .error (.valueError "No common lower bounds found.")
  else
    match (lowerBoundsOf elements relations a b).find?
        (fun x => (lowerBoundsOf elements relations a b).all
          (fun y => isLEb relations y x)) with
    | some x => .ok x
    | none => .error (.valueError "No unique Meet found.")

/-- Truthiness of an `Except` result (Python: no exception raised). -/
def exOk {α : Type} : Except PyErr α → Bool
  | .ok _ => true
  | .error _ => false

/-- Embeds `Lattice.meet_set`: left fold of `meet` over the subset starting
from its first element (the first element is folded in twice, as in the
source loop); `fallback` is what the empty subset returns (`self.top` once
the lattice is built, an attribute error during construction). -/
def meetSetAux (elements : List String) (relations : List (String × String))
    (fallback : Except PyErr String) (subset : List String) : Except PyErr String :=
  match subset with
  | [] => fallback
  | x :: _ => subset.foldlM (fun acc e => meetOn elements relations acc e) x

/-- Embeds `Lattice.join_set`, dually to `meetSetAux`. -/
def joinSetAux (elements : List String) (relations : List (String × String))
    (fallback : Except PyErr String) (subset : List String) : Except PyErr String :=
  match subset with
  | [] => fallback
  | x :: _ => subset.foldlM (fun acc e => joinOn elements relations acc e) x

/-- Embeds `Lattice._check_is_lattice`: every ordered pair of elements has
a computable meet and join (no error raised). -/
def checkIsLattice (elements : List String) (relations : List (String × String)) : Bool :=
  elements.all (fun x => elements.all (fun y =>
    exOk (meetOn elements relations x y) && exOk (joinOn elements relations x y)))

/-- A fully constructed lattice: the constructor-assigned attributes. -/
structure Lattice where
  name : String
  elements : List String
  relations : List (String × String)
  negation_map : List (String × String)
  implication_map : List ((String × String) × String)
  bottom : String
  top : String
  deriving DecidableEq

def Lattice.is_less_than_or_equal (L : Lattice) (a b : String) : Bool :=
  isLEb L.relations a b

def Lattice.join (L : Lattice) (a b : String) : Except PyErr String :=
  joinOn L.elements L.relations a b

def Lattice.meet (L : Lattice) (a b : String) : Except PyErr String :=
  meetOn L.elements L.relations a b

def Lattice.meet_set (L : Lattice) (subset : List String) : Except PyErr String :=
  meetSetAux L.elements L.relations (.ok L.top) subset

def Lattice.join_set (L : Lattice) (subset : List String) : Except PyErr String :=
  joinSetAux L.elements L.relations (.ok L.bottom) subset

/-- Embeds `Lattice.__init__`: validate closure, then derive `bottom` as the
meet of all elements and `top` as their join. While `bottom` is being
computed the `top` attribute does not exist yet, so the empty-subset branch
of `meet_set` raises an attribute error at that point. -/
def mkLattice (name : String) (elements : List String)
    (relations : List (String × String))
    (negation_map : List (String × String))
    (implication_map : List ((String × String) × String)) : Except PyErr Lattice :=
  if checkIsLattice elements relations then
    match meetSetAux elements relations
        (.error (.attributeError "Lattice object has no attribute top")) elements with
    | .error e => .error e
    | .ok bottom =>
      match joinSetAux elements relations (.ok bottom) elements with
      | .error e => .error e
      | .ok top =>
        .ok { name := name, elements := elements, relations := relations,
              negation_map := negation_map, implication_map := implication_map,
              bottom := bottom, top := top }
  else
    .error (.valueError "The object is not a valid lattice.")

/-- A many-lattice: the base (filtered) lattice together with the registered
complete sublattices (`comp_sub_lat`); inheritance is modelled by embedding
the base `Lattice` value. -/
structure ManyLattice where
  toLattice : Lattice
  name_filtered_lattice : String
  filter : List String
  comp_sub_lat : List Lattice
  name_many_lattice : String
  deriving DecidableEq

/-- Embeds `ManyLattice.__init__` (through `FilteredLattice.__init__` and
`Lattice.__init__`): build and validate the base lattice, check the filter
is a subset of the elements, and register the supplied sublattice list
as given (the per-item isinstance check is vacuous under typing). -/
def mkManyLattice (name_many_lattice name_filtered_lattice name_lattice : String)
    (elements : List String) (relations : List (String × String))
    (comp_sub_lat : List Lattice)
    (negation_map : List (String × String))
    (implication_map : List ((String × String) × String))
    (filter : Option (List String)) : Except PyErr ManyLattice :=
  match mkLattice name_lattice elements relations negation_map implication_map with
  | .error e => .error e
  | .ok base =>
    let filt := filter.getD []
    if filt.all (fun f => decide (f ∈ base.elements)) then
      .ok { toLattice := base, name_filtered_lattice := name_filtered_lattice,
            filter := filt, comp_sub_lat := comp_sub_lat,
            name_many_lattice := name_many_lattice }
    else
      .error (.valueError "The Filter must be a subset of the Lattice elements.")

/-- Embeds `ManyLattice.get_comp_sub_lattice`: first sublattice with the
given name, if any. -/
def ManyLattice.get_comp_sub_lattice (M : ManyLattice) (name : String) : Option Lattice :=
  M.comp_sub_lat.find? (fun lattice => lattice.name == name)

/-- Embeds `ManyLattice.add_comp_sub_lat`: reject a duplicate name, else
append (the isinstance check is vacuous under typing). -/
def ManyLattice.add_comp_sub_lat (M : ManyLattice) (lattice : Lattice) :
    Except PyErr ManyLattice :=
  match M.get_comp_sub_lattice lattice.name with
  | some _ => .error (.valueError "Lattice already exists.")
  | none => .ok { M with comp_sub_lat := M.comp_sub_lat ++ [lattice] }

/-- The sublattice elements below `a` in the base order, in scan order. -/
def lowerSetOf (M : ManyLattice) (lattice : Lattice) (a : String) : List String :=
  lattice.elements.filter (fun x => isLEb M.toLattice.relations x a)

/-- The sublattice elements above `a` in the base order, in scan order. -/
def upperSetOf (M : ManyLattice) (lattice : Lattice) (a : String) : List String :=
  lattice.elements.filter (fun x => isLEb M.toLattice.relations a x)

/-- Embeds `ManyLattice.down_interpretation`: identity on members of the
registered sublattice, otherwise the sublattice join of the sublattice
elements below `element_a` in the base order (bottom when none). -/
def ManyLattice.down_interpretation (M : ManyLattice) (lattice : Lattice)
    (element_a : String) : Except PyErr String :=
  if lattice.name ∉ M.comp_sub_lat.map Lattice.name then
    .error (.valueError "Lattice must be a registered complete sublattice.")
  else if element_a ∈ lattice.elements then
    .ok element_a
  else if (lowerSetOf M lattice element_a).isEmpty then
    .ok lattice.bottom
  else
    lattice.join_set (lowerSetOf M lattice element_a)

/-- Embeds `ManyLattice.up_interpretation`: identity on members, otherwise
the sublattice meet of the sublattice elements above `element_a` in the
base order (top when none). -/
def ManyLattice.up_interpretation (M : ManyLattice) (lattice : Lattice)
    (element_a : String) : Except PyErr String :=
  if lattice.name ∉ M.comp_sub_lat.map Lattice.name then
    .error (.valueError "Lattice must be a registered complete sublattice.")
  else if element_a ∈ lattice.elements then
    .ok element_a
  else if (upperSetOf M lattice element_a).isEmpty then
    .ok lattice.top
  else
    lattice.meet_set (upperSetOf M lattice element_a)

/-- A world: a named state carrying its local lattice and the map from
propositions to local truth values. -/
structure World where
  name_long : String
  name_short : String
  lattice : Lattice
  assignments : List (String × String)
  deriving DecidableEq

/-- A model: the shared many-lattice, the worlds, the distinguished initial
world, the accessibility relation (association list keyed by world), and
the proposition/action sets. -/
structure Model where
  name_model : String
  many_lattice : ManyLattice
  worlds : List World
  initial_state : World
  accessibility_relation : List (World × List World)
  props : List String
  actions : List String
  deriving DecidableEq

/-- Embeds `Model.__init__`: the isinstance checks are vacuous under typing;
store the arguments and ensure every world has an (possibly empty)
accessibility entry. No validation of the worlds' lattices happens here. -/
def mkModel (name_model : String) (many_lattice : ManyLattice)
    (worlds : List World) (initial_state : World)
    (assessibility_relation : Option (List (World × List World)))
    (props : Option (List String)) (actions : Option (List String)) :
    Except PyErr Model :=
  let acc0 := assessibility_relation.getD []
  let acc1 := worlds.foldl
    (fun acc w => if acc.any (fun p => p.1 == w) then acc else acc ++ [(w, [])]) acc0
  .ok { name_model := name_model, many_lattice := many_lattice, worlds := worlds,
        initial_state := initial_state, accessibility_relation := acc1,
        props := props.getD [], actions := actions.getD [] }

/-- Embeds `Model.get_world`: first world with the given short name. -/
def Model.get_world (M : Model) (name_short : String) : Option World :=
  M.worlds.find? (fun world => world.name_short == name_short)

/-- The accessible-world set of `w`, as read by the evaluator:
`model.accessibility_relation.get(world, set())`. -/
def accGet (M : Model) (w : World) : List World :=
  match M.accessibility_relation.find? (fun p => p.1 == w) with
  | some p => p.2
  | none => []

/-- Embeds `Model.add_world`: reject a duplicate short name, reject a world
whose lattice name is not among the registered sublattice names, else add
the world and initialize an empty accessibility entry. -/
def Model.add_world (M : Model) (world : World) : Except PyErr Model :=
  match M.get_world world.name_short with
  | some _ => .error (.valueError "A world with the name already exists.")
  | none =>
    if world.lattice.name ∉ M.many_lattice.comp_sub_lat.map Lattice.name then
      .error (.exception "The worlds lattice must be a complete sublattice of the base lattice.")
    else
      let acc := if M.accessibility_relation.any (fun p => p.1 == world) then
        M.accessibility_relation
      else
        M.accessibility_relation ++ [(world, [])]
      .ok { M with worlds := M.worlds ++ [world], accessibility_relation := acc }

/-- Embeds `Model.delete_world`: error while the world has an outgoing or an
incoming edge; otherwise drop its accessibility entry and remove it from the
worlds set (`set.remove` raises a key error on a non-member). -/
def Model.delete_world (M : Model) (world : World) : Except PyErr Model :=
  if accGet M world ≠ [] then
    .error (.valueError "World has outgoing relations. Delete them first.")
  else
    match M.accessibility_relation.find? (fun p => decide (world ∈ p.2)) with
    | some _ => .error (.valueError "Another world points to it. Remove relation first.")
    | none =>
      if world ∈ M.worlds then
        .ok { M with
              accessibility_relation :=
                M.accessibility_relation.eraseP (fun p => p.1 == world),
              worlds := M.worlds.erase world }
      else
        .error (.keyError "world not in worlds set")

/-- The abstract syntax tree of formulas. -/
inductive ASTNode where
  | atom (name : String)
  | not (child : ASTNode)
  | and (left right : ASTNode)
  | or (left right : ASTNode)
  | implies (left right : ASTNode)
  | iff (left right : ASTNode)
  | box (child : ASTNode)
  | diamond (child : ASTNode)
  deriving DecidableEq

/-- Embeds `get_atoms`: the union of atom names over the subtree. -/
def ASTNode.get_atoms : ASTNode → List String
  | .atom name => [name]
  | .not child => child.get_atoms
  | .and l r => l.get_atoms ++ r.get_atoms
  | .or l r => l.get_atoms ++ r.get_atoms
  | .implies l r => l.get_atoms ++ r.get_atoms
  | .iff l r => l.get_atoms ++ r.get_atoms
  | .box child => child.get_atoms
  | .diamond child => child.get_atoms

/-- Termination weight for evaluation: `iff` is evaluated through the node
`And (Implies l r) (Implies r l)` and `diamond` through `Not (Box (Not a))`,
so those two get enough headroom to dominate the node they construct. -/
@[simp]
def ASTNode.wt : ASTNode → Nat
  | .atom _ => 1
  | .not child => child.wt + 1
  | .and l r => l.wt + r.wt + 1
  | .or l r => l.wt + r.wt + 1
  | .implies l r => l.wt + r.wt + 1
  | .iff l r => 2 * l.wt + 2 * r.wt + 4
  | .box child => child.wt + 1
  | .diamond child => child.wt + 4

/-- Projection of a base element into the current world's lattice per the
interpretation mode (any mode other than "up" behaves as "down"). -/
def interpEl (M : ManyLattice) (lattice : Lattice) (v : String) (mode : String) :
    Except PyErr String :=
  if mode == "up" then M.up_interpretation lattice v
  else M.down_interpretation lattice v

mutual

/-- Embeds `ASTNode.evaluate` of each node class: a pure recursive walk
producing an element of the current world's lattice. -/
def eval : ASTNode → Model → World → String → Except PyErr String
  | .atom name, _, world, _ =>
    match world.assignments.lookup name with
    | some v => .ok v
    | none => .error (.valueError "Proposition is not defined in world.")
  | .not child, M, world, mode => do
    let val ← eval child M world mode
    match M.many_lattice.toLattice.negation_map.lookup val with
    | some negated_base => interpEl M.many_lattice world.lattice negated_base mode
    | none => .error (.valueError "Negation not defined in the Base Lattice.")
  | .and l r, M, world, mode => do
    let val_a ← eval l M world mode
    let val_b ← eval r M world mode
    world.lattice.meet val_a val_b
  | .or l r, M, world, mode => do
    let val_a ← eval l M world mode
    let val_b ← eval r M world mode
    world.lattice.join val_a val_b
  | .implies l r, M, world, mode => do
    let val_a ← eval l M world mode
    let val_b ← eval r M world mode
    match M.many_lattice.toLattice.implication_map.lookup (val_a, val_b) with
    | some base_result => interpEl M.many_lattice world.lattice base_result mode
    | none =>
      match M.many_lattice.toLattice.negation_map.lookup val_a with
      | some neg_a_base => do
        let val_not_a ← interpEl M.many_lattice world.lattice neg_a_base mode
        world.lattice.join val_not_a val_b
      | none => .error (.valueError "Negation not defined for implication fallback.")
  | .iff l r, M, world, mode =>
    eval (.and (.implies l r) (.implies r l)) M world mode
  | .box child, M, world, mode =>
    let accessible_worlds := accGet M world
    if accessible_worlds.isEmpty then
      .ok world.lattice.top
    else do
      let vals ← evalAtWorlds child M world.lattice accessible_worlds mode
      world.lattice.meet_set vals.eraseDups
  | .diamond child, M, world, mode =>
    eval (.not (.box (.not child))) M world mode
termination_by A M world mode => (A.wt, 0)

/-- The body of the `Box.evaluate` loop: evaluate the child at each
accessible world and project the value into the current lattice. -/
def evalAtWorlds : ASTNode → Model → Lattice → List World → String →
    Except PyErr (List String)
  | _, _, _, [], _ => .ok []
  | child, M, lattice, u :: us, mode => do
    let raw_val ← eval child M u mode
    let interp_val ← interpEl M.many_lattice lattice raw_val mode
    let rest ← evalAtWorlds child M lattice us mode
    .ok (interp_val :: rest)
termination_by child M lattice ws mode => (child.wt, ws.length + 1)

end

/-- Tokens produced by the lexer (`EOF` marks exhausted input). -/
inductive Tok where
  | ATOM (s : String)
  | NOT
  | BOX
  | DIAMOND
  | IFF
  | IMPLIES
  | AND
  | OR
  | LPAREN
  | RPAREN
  | EOF
  deriving DecidableEq

/-- The token-type tag compared by `FormulaParser.eat`. -/
def tokTy : Tok → String
  | .ATOM _ => "ATOM"
  | .NOT => "NOT"
  | .BOX => "BOX"
  | .DIAMOND => "DIAMOND"
  | .IFF => "IFF"
  | .IMPLIES => "IMPLIES"
  | .AND => "AND"
  | .OR => "OR"
  | .LPAREN => "LPAREN"
  | .RPAREN => "RPAREN"
  | .EOF => "EOF"

/-- Embeds `Lexer.get_atom`: the maximal alphanumeric run from the current
position. -/
def getAtomChars : List Char → String → String × List Char
  | [], acc => (acc, [])
  | c :: cs, acc =>
    if c.isAlphanum then getAtomChars cs (acc.push c) else (acc, c :: cs)

/-- Embeds `Lexer.get_next_token`: skip whitespace, then greedily read one
token, failing on an unknown character or a malformed two-character token. -/
def getNextToken : List Char → Except PyErr (Tok × List Char)
  | [] => .ok (.EOF, [])
  | c :: cs =>
    if c.isWhitespace then getNextToken cs
    else if c.isAlphanum then
      let (s, rest) := getAtomChars (c :: cs) ""
      .ok (.ATOM s, rest)
    else if c = '~' then .ok (.NOT, cs)
    else if c = '[' then
      match cs with
      | ']' :: cs2 => .ok (.BOX, cs2)
      | _ => .error (.valueError "Expected closing bracket after opening bracket")
    else if c = '<' then
      match cs with
      | '>' :: cs2 => .ok (.DIAMOND, cs2)
      | '-' :: '>' :: cs3 => .ok (.IFF, cs3)
      | '-' :: _ => .error (.valueError "Expected arrow head after dash")
      | _ => .error (.valueError "Expected diamond or arrow continuation")
    else if c = '-' then
      match cs with
      | '>' :: cs2 => .ok (.IMPLIES, cs2)
      | _ => .error (.valueError "Expected arrow head after dash")
    else if c = '&' then .ok (.AND, cs)
    else if c = '|' then .ok (.OR, cs)
    else if c = '(' then .ok (.LPAREN, cs)
    else if c = ')' then .ok (.RPAREN, cs)
    else .error (.valueError "Unknown character")

/-- Parser state: the current token and the unconsumed characters. -/
abbrev PState := Tok × List Char

/-- Embeds `FormulaParser.eat`: consume the current token when its type tag
matches, pulling the next token from the lexer. -/
def eatTok (ty : String) (st : PState) : Except PyErr PState :=
  if tokTy st.1 == ty then getNextToken st.2
  else .error (.valueError "Expected other token type")

mutual

/-- Embeds `FormulaParser.iff` (loop split into `pIffLoop`); `fuel` bounds
the recursion depth and is never exhausted on inputs the source accepts. -/
def pIff : Nat → PState → Except PyErr (ASTNode × PState)
  | 0, _ => .error (.valueError "parser fuel exhausted")
  | fuel + 1, st => do
    let (node, st1) ← pImplies fuel st
    pIffLoop fuel node st1

def pIffLoop : Nat → ASTNode → PState → Except PyErr (ASTNode × PState)
  | 0, _, _ => .error (.valueError "parser fuel exhausted")
  | fuel + 1, node, st =>
    if tokTy st.1 == "IFF" then do
      let st1 ← eatTok "IFF" st
      let (rhs, st2) ← pImplies fuel st1
      pIffLoop fuel (.iff node rhs) st2
    else .ok (node, st)

def pImplies : Nat → PState → Except PyErr (ASTNode × PState)
  | 0, _ => .error (.valueError "parser fuel exhausted")
  | fuel + 1, st => do
    let (node, st1) ← pOr fuel st
    pImpliesLoop fuel node st1

def pImpliesLoop : Nat → ASTNode → PState → Except PyErr (ASTNode × PState)
  | 0, _, _ => .error (.valueError "parser fuel exhausted")
  | fuel + 1, node, st =>
    if tokTy st.1 == "IMPLIES" then do
      let st1 ← eatTok "IMPLIES" st
      let (rhs, st2) ← pOr fuel st1
      pImpliesLoop fuel (.implies node rhs) st2
    else .ok (node, st)

def pOr : Nat → PState → Except PyErr (ASTNode × PState)
  | 0, _ => .error (.valueError "parser fuel exhausted")
  | fuel + 1, st => do
    let (node, st1) ← pAnd fuel st
    pOrLoop fuel node st1

def pOrLoop : Nat → ASTNode → PState → Except PyErr (ASTNode × PState)
  | 0, _, _ => .error (.valueError "parser fuel exhausted")
  | fuel + 1, node, st =>
    if tokTy st.1 == "OR" then do
      let st1 ← eatTok "OR" st
      let (rhs, st2) ← pAnd fuel st1
      pOrLoop fuel (.or node rhs) st2
    else .ok (node, st)

def pAnd : Nat → PState → Except PyErr (ASTNode × PState)
  | 0, _ => .error (.valueError "parser fuel exhausted")
  | fuel + 1, st => do
    let (node, st1) ← pUnary fuel st
    pAndLoop fuel node st1

def pAndLoop : Nat → ASTNode → PState → Except PyErr (ASTNode × PState)
  | 0, _, _ => .error (.valueError "parser fuel exhausted")
  | fuel + 1, node, st =>
    if tokTy st.1 == "AND" then do
      let st1 ← eatTok "AND" st
      let (rhs, st2) ← pUnary fuel st1
      pAndLoop fuel (.and node rhs) st2
    else .ok (node, st)

/-- Embeds `FormulaParser.unary`: NOT/BOX/DIAMOND prefixes, parenthesized
groups, atoms, and the catch-all syntax failure. -/
def pUnary : Nat → PState → Except PyErr (ASTNode × PState)
  | 0, _ => .error (.valueError "parser fuel exhausted")
  | fuel + 1, st =>
    match st.1 with
    | .NOT => do
      let st1 ← eatTok "NOT" st
      let (node, st2) ← pUnary fuel st1
      .ok (.not node, st2)
    | .BOX => do
      let st1 ← eatTok "BOX" st
      let (node, st2) ← pUnary fuel st1
      .ok (.box node, st2)
    | .DIAMOND => do
      let st1 ← eatTok "DIAMOND" st
      let (node, st2) ← pUnary fuel st1
      .ok (.diamond node, st2)
    | .LPAREN => do
      let st1 ← eatTok "LPAREN" st
      let (node, st2) ← pIff fuel st1
      let st3 ← eatTok "RPAREN" st2
      .ok (node, st3)
    | .ATOM name => do
      let st1 ← eatTok "ATOM" st
      .ok (.atom name, st1)
    | _ => .error (.valueError "Unexpected syntax in formula")

end

/-- Embeds `FormulaParser.__init__` followed by `parse`: pull the first
token, parse a full `iff`, and reject leftover input. -/
def parseFormula (text : String) : Except PyErr ASTNode := do
  let st0 ← getNextToken text.toList
  let (node, st) ← pIff (8 * text.length + 8) st0
  if tokTy st.1 == "EOF" then .ok node
  else .error (.valueError "Unexpected characters at end of formula")

/-- The evaluation entry point: parse the formula text and evaluate the
resulting tree at the given model, world and mode. -/
def evalStr (text : String) (M : Model) (world : World) (mode : String) :
    Except PyErr String := do
  let node ← parseFormula text
  eval node M world mode

/-- The two-valued Boolean lattice used by the evaluation scenario. -/
def boolLat : Lattice :=
  { name := "B", elements := ["0", "1"],
    relations := [("0", "0"), ("0", "1"), ("1", "1")],
    negation_map := [("0", "1"), ("1", "0")], implication_map := [],
    bottom := "0", top := "1" }

/-- The scenario many-lattice: the Boolean lattice is its own registered
complete sublattice, with an empty filter. -/
def boolMany : ManyLattice :=
  { toLattice := boolLat, name_filtered_lattice := "BF", filter := [],
    comp_sub_lat := [boolLat], name_many_lattice := "BM" }

/-- The scenario's single world: p is assigned 1 and q is assigned 0. -/
def w1 : World :=
  { name_long := "w1", name_short := "w1", lattice := boolLat,
    assignments := [("p", "1"), ("q", "0")] }

/-- The scenario model: one world, no accessibility edges. -/
def M1 : Model :=
  { name_model := "M1", many_lattice := boolMany, worlds := [w1],
    initial_state := w1, accessibility_relation := [(w1, [])],
    props := [], actions := [] }

/-- A one-element lattice whose single element 2 lies outside the Boolean
base elements; also used as an unregistered world lattice. -/
def Kbad : Lattice :=
  { name := "K2", elements := ["2"], relations := [("2", "2")],
    negation_map := [], implication_map := [], bottom := "2", top := "2" }

/-- The many-lattice obtained by registering `Kbad`, whose elements are not
a subset of the Boolean base elements. -/
def M6 : ManyLattice :=
  { toLattice := boolLat, name_filtered_lattice := "BF6", filter := [],
    comp_sub_lat := [Kbad], name_many_lattice := "BM6" }

/-- A world whose lattice `Kbad` is not registered in the Boolean
many-lattice. -/
def wBad : World :=
  { name_long := "wb", name_short := "wb", lattice := Kbad, assignments := [] }

/-- The model the constructor happily builds around `wBad`. -/
def MBad : Model :=
  { name_model := "MB", many_lattice := boolMany, worlds := [wBad],
    initial_state := wBad, accessibility_relation := [(wBad, [])],
    props := [], actions := [] }

/-- A second scenario world, fresh by short name, carrying the registered
Boolean lattice. -/
def w2 : World :=
  { name_long := "w2", name_short := "w2", lattice := boolLat, assignments := [] }

/-- A lattice over two mutually related elements: the relation passes the
closure check but is not antisymmetric. -/
def K4 : Lattice :=
  { name := "K", elements := ["b", "a"],
    relations := [("a", "a"), ("a", "b"), ("b", "a"), ("b", "b")],
    negation_map := [], implication_map := [], bottom := "b", top := "b" }

/-- A valid lattice on the Boolean elements whose order is the reverse of
the base order (1 below 0). -/
def L2 : Lattice :=
  { name := "L2", elements := ["0", "1"],
    relations := [("0", "0"), ("1", "0"), ("1", "1")],
    negation_map := [], implication_map := [], bottom := "1", top := "0" }

/-- A many-lattice over the Boolean base with the reversed lattice `L2`
registered as its complete sublattice. -/
def M2 : ManyLattice :=
  { toLattice := boolLat, name_filtered_lattice := "BF2", filter := [],
    comp_sub_lat := [L2], name_many_lattice := "BM2" }

/-! Theorems: solver algebra, set folds, construction facts, and the
claim statements with their witnesses and counterexamples. -/

/-- The Boolean order test holds exactly when the pair is in the
relation list. -/
theorem isLEb_iff {rs : List (String × String)} {a b : String} :
    isLEb rs a b = true ↔ (a, b) ∈ rs := by
  simp [isLEb]

/-- What a successful `join` scan guarantees: the result is an element, an
upper bound of both arguments, and below every common upper bound. -/
theorem joinOn_ok {es : List String} {rs : List (String × String)} {a b c : String}
    (h : joinOn es rs a b = .ok c) :
    c ∈ es ∧ isLEb rs a c = true ∧ isLEb rs b c = true ∧
      ∀ u ∈ es, isLEb rs a u = true → isLEb rs b u = true → isLEb rs c u = true := by
  unfold joinOn at h
  split at h
  · cases h
  · by_cases hemp : (upperBoundsOf es rs a b).isEmpty
    · rw [if_pos hemp] at h; cases h
    · rw [if_neg hemp] at h
      cases hf : (upperBoundsOf es rs a b).find?
          (fun x => (upperBoundsOf es rs a b).all (fun y => isLEb rs x y)) with
      | none => rw [hf] at h; cases h
      | some x =>
        rw [hf] at h
        cases h
        have hmem := List.mem_of_find?_eq_some hf
        have hpred := List.find?_some hf
        rw [List.all_eq_true] at hpred
        rw [upperBoundsOf, List.mem_filter] at hmem
        obtain ⟨hces, hbd⟩ := hmem
        rw [Bool.and_eq_true] at hbd
        refine ⟨hces, hbd.1, hbd.2, ?_⟩
        intro u hu hau hbu
        exact hpred u (by rw [upperBoundsOf, List.mem_filter]; exact ⟨hu, by rw [Bool.and_eq_true]; exact ⟨hau, hbu⟩⟩)

/-- What a successful `meet` scan guarantees, dually. -/
theorem meetOn_ok {es : List String} {rs : List (String × String)} {a b c : String}
    (h : meetOn es rs a b = .ok c) :
    c ∈ es ∧ isLEb rs c a = true ∧ isLEb rs c b = true ∧
      ∀ u ∈ es, isLEb rs u a = true → isLEb rs u b = true → isLEb rs u c = true := by
  unfold meetOn at h
  split at h
  · cases h
  · by_cases hemp : (lowerBoundsOf es rs a b).isEmpty
    · rw [if_pos hemp] at h; cases h
    · rw [if_neg hemp] at h
      cases hf : (lowerBoundsOf es rs a b).find?
          (fun x => (lowerBoundsOf es rs a b).all (fun y => isLEb rs y x)) with
      | none => rw [hf] at h; cases h
      | some x =>
        rw [hf] at h
        cases h
        have hmem := List.mem_of_find?_eq_some hf
        have hpred := List.find?_some hf
        rw [List.all_eq_true] at hpred
        rw [lowerBoundsOf, List.mem_filter] at hmem
        obtain ⟨hces, hbd⟩ := hmem
        rw [Bool.and_eq_true] at hbd
        refine ⟨hces, hbd.1, hbd.2, ?_⟩
        intro u hu hau hbu
        exact hpred u (by rw [lowerBoundsOf, List.mem_filter]; exact ⟨hu, by rw [Bool.and_eq_true]; exact ⟨hau, hbu⟩⟩)

/-- The construction-time closure check really does make every binary join
succeed. -/
theorem check_join_ok {es : List String} {rs : List (String × String)}
    (h : checkIsLattice es rs = true) {a b : String} (ha : a ∈ es) (hb : b ∈ es) :
    ∃ c, joinOn es rs a b = .ok c := by
  rw [checkIsLattice, List.all_eq_true] at h
  have h2 := h a ha
  rw [List.all_eq_true] at h2
  have h3 := h2 b hb
  rw [Bool.and_eq_true] at h3
  cases hj : joinOn es rs a b with
  | ok c => exact ⟨c, rfl⟩
  | error e => rw [hj] at h3; simp [exOk] at h3

/-- The construction-time closure check really does make every binary meet
succeed. -/
theorem check_meet_ok {es : List String} {rs : List (String × String)}
    (h : checkIsLattice es rs = true) {a b : String} (ha : a ∈ es) (hb : b ∈ es) :
    ∃ c, meetOn es rs a b = .ok c := by
  rw [checkIsLattice, List.all_eq_true] at h
  have h2 := h a ha
  rw [List.all_eq_true] at h2
  have h3 := h2 b hb
  rw [Bool.and_eq_true] at h3
  cases hm : meetOn es rs a b with
  | ok c => exact ⟨c, rfl⟩
  | error e => rw [hm] at h3; simp [exOk] at h3

/-- C1: in the two-valued Boolean scenario (base many-lattice over elements
0 and 1 with 0 below 1, negation swapping 0 and 1, empty implication map,
the Boolean lattice registered as its own complete sublattice, one world
with p assigned 1 and q assigned 0), under either interpretation mode the
parsed formulas evaluate to: p AND q gives 0, p OR q gives 1, NOT p gives
0, and p IMPLIES q gives 0 through the material fallback
join(not p, q) = join(0, 0) = 0. -/
theorem claim_C1 :
    mkLattice "B" ["0", "1"] [("0", "0"), ("0", "1"), ("1", "1")]
      [("0", "1"), ("1", "0")] [] = .ok boolLat
  ∧ mkManyLattice "BM" "BF" "B" ["0", "1"] [("0", "0"), ("0", "1"), ("1", "1")]
      [boolLat] [("0", "1"), ("1", "0")] [] none = .ok boolMany
  ∧ mkModel "M1" boolMany [w1] w1 none none none = .ok M1
  ∧ evalStr "p & q" M1 w1 "down" = .ok "0" ∧ evalStr "p & q" M1 w1 "up" = .ok "0"
  ∧ evalStr "p | q" M1 w1 "down" = .ok "1" ∧ evalStr "p | q" M1 w1 "up" = .ok "1"
  ∧ evalStr "~p" M1 w1 "down" = .ok "0" ∧ evalStr "~p" M1 w1 "up" = .ok "0"
  ∧ evalStr "p -> q" M1 w1 "down" = .ok "0" ∧ evalStr "p -> q" M1 w1 "up" = .ok "0"
  ∧ boolLat.join "0" "0" = .ok "0" := by
  have hand : parseFormula "p & q" = .ok (.and (.atom "p") (.atom "q")) := by decide
  have hor : parseFormula "p | q" = .ok (.or (.atom "p") (.atom "q")) := by decide
  have hnot : parseFormula "~p" = .ok (.not (.atom "p")) := by decide
  have himp : parseFormula "p -> q" = .ok (.implies (.atom "p") (.atom "q")) := by decide
  refine ⟨by decide, by decide, by decide, ?_, ?_, ?_, ?_, ?_, ?_, ?_, ?_, by decide⟩ <;>
    simp +decide [evalStr, hand, hor, hnot, himp, bind, Except.bind, eval, M1, w1,
      boolLat, boolMany, interpEl, ManyLattice.up_interpretation,
      ManyLattice.down_interpretation, lowerSetOf, upperSetOf,
      Lattice.meet, Lattice.join, meetOn, joinOn, lowerBoundsOf, upperBoundsOf,
      isLEb, Lattice.meet_set, Lattice.join_set, meetSetAux, joinSetAux,
      List.lookup, accGet, List.foldlM]

/-- C2: evaluating Box(A) at any world whose accessibility entry is empty
(or missing) returns that world's lattice top, with no error, for every
model, subformula and interpretation mode. -/
theorem claim_C2 (M : Model) (w : World) (A : ASTNode) (mode : String)
    (h : accGet M w = []) : eval (.box A) M w mode = .ok w.lattice.top := by
  simp [eval, h]

/-- C2 witness: the scenario world has an empty accessibility entry, and a
box over an atom that is assigned nowhere still evaluates to top. -/
theorem claim_C2_witness :
    accGet M1 w1 = [] ∧ eval (.box (.atom "r")) M1 w1 "down" = .ok w1.lattice.top :=
  ⟨by decide, claim_C2 M1 w1 (.atom "r") "down" (by decide)⟩

/-- C5: for every lattice value, the meet of the empty set is the top
element and the join of the empty set is the bottom element. -/
theorem claim_C5 (L : Lattice) :
    L.meet_set [] = .ok L.top ∧ L.join_set [] = .ok L.bottom :=
  ⟨rfl, rfl⟩

/-- C9: parsing "(p & q)" yields And(Atom p, Atom q), parsing "[]p" yields
Box(Atom p), and parsing "p &" fails with a syntax error, producing no
tree. -/
theorem claim_C9 :
    parseFormula "(p & q)" = .ok (.and (.atom "p") (.atom "q"))
  ∧ parseFormula "[]p" = .ok (.box (.atom "p"))
  ∧ parseFormula "p &" = .error (.valueError "Unexpected syntax in formula") := by
  refine ⟨by decide, by decide, by decide⟩

/-- C10: constructing a lattice from the empty element set never succeeds:
the closure check passes vacuously, but deriving bottom takes the
empty-subset branch of meet_set, which reads the not-yet-assigned top
attribute, so construction fails with an attribute error rather than the
documented not-a-valid-lattice value error. -/
theorem claim_C10 (name : String) (negation_map : List (String × String))
    (implication_map : List ((String × String) × String)) :
    checkIsLattice [] [] = true
  ∧ mkLattice name [] [] negation_map implication_map =
      .error (.attributeError "Lattice object has no attribute top")
  ∧ ∀ msg, PyErr.attributeError "Lattice object has no attribute top" ≠
      PyErr.valueError msg :=
  ⟨rfl, rfl, fun _ h => by cases h⟩

/-- C6 counterexample: ManyLattice construction and add_comp_sub_lat both
accept the validly built lattice `Kbad` even though its element 2 is not a
base element, so the claimed rejection does not happen. -/
theorem counterexample_C6 :
    mkLattice "K2" ["2"] [("2", "2")] [] [] = .ok Kbad
  ∧ mkManyLattice "BM6" "BF6" "B" ["0", "1"] [("0", "0"), ("0", "1"), ("1", "1")]
      [Kbad] [("0", "1"), ("1", "0")] [] none = .ok M6
  ∧ Kbad ∈ M6.comp_sub_lat
  ∧ "2" ∈ Kbad.elements ∧ "2" ∉ M6.toLattice.elements
  ∧ boolMany.add_comp_sub_lat Kbad =
      .ok { boolMany with comp_sub_lat := boolMany.comp_sub_lat ++ [Kbad] }
  ∧ ¬ ∀ x ∈ Kbad.elements, x ∈ boolMany.toLattice.elements := by
  refine ⟨by decide, by decide, by decide, by decide, by decide, by decide, by decide⟩

/-- C6 amended: neither ManyLattice construction nor add_comp_sub_lat
checks the elements-subset property. Construction registers the supplied
sublattice list verbatim; add_comp_sub_lat appends any lattice whose name
is fresh and rejects exactly a duplicate name; the subset invariant is
preserved only when the caller supplies subset-respecting sublattices. -/
theorem claim_C6_amended (M : ManyLattice) (lat : Lattice) :
    (M.get_comp_sub_lattice lat.name = none →
      M.add_comp_sub_lat lat = .ok { M with comp_sub_lat := M.comp_sub_lat ++ [lat] })
  ∧ ((∃ l, M.get_comp_sub_lattice lat.name = some l) →
      ∃ e, M.add_comp_sub_lat lat = .error e)
  ∧ (∀ nml nfl nl els rels subs nm im fil M2,
      mkManyLattice nml nfl nl els rels subs nm im fil = .ok M2 →
      M2.comp_sub_lat = subs)
  ∧ (∀ M2, M.add_comp_sub_lat lat = .ok M2 →
      (∀ l ∈ M.comp_sub_lat, ∀ x ∈ l.elements, x ∈ M.toLattice.elements) →
      (∀ x ∈ lat.elements, x ∈ M.toLattice.elements) →
      ∀ l ∈ M2.comp_sub_lat, ∀ x ∈ l.elements, x ∈ M2.toLattice.elements) := by
  refine ⟨?_, ?_, ?_, ?_⟩
  · intro h
    rw [ManyLattice.add_comp_sub_lat, h]
  · intro ⟨l, hl⟩
    rw [ManyLattice.add_comp_sub_lat, hl]
    exact ⟨_, rfl⟩
  · intro nml nfl nl els rels subs nm im fil M2 h
    rw [mkManyLattice] at h
    cases hmk : mkLattice nl els rels nm im with
    | error e => rw [hmk] at h; cases h
    | ok base =>
      rw [hmk] at h
      dsimp only at h
      by_cases hf : (fil.getD []).all (fun f => decide (f ∈ base.elements)) = true
      · rw [if_pos hf] at h
        cases h
        rfl
      · rw [if_neg hf] at h; cases h
  · intro M2 h hall hlat
    rw [ManyLattice.add_comp_sub_lat] at h
    cases hg : M.get_comp_sub_lattice lat.name with
    | some l => rw [hg] at h; cases h
    | none =>
      rw [hg] at h
      cases h
      intro l hm
      rw [List.mem_append] at hm
      cases hm with
      | inl hm => exact hall l hm
      | inr hm =>
        rw [List.mem_singleton] at hm
        subst hm
        exact hlat

/-- C6 witness: applying the amended theorem at the Boolean many-lattice
and `Kbad`, whose name is fresh, really does append it. -/
theorem claim_C6_witness :
    boolMany.add_comp_sub_lat Kbad =
      .ok { boolMany with comp_sub_lat := boolMany.comp_sub_lat ++ [Kbad] } :=
  (claim_C6_amended boolMany Kbad).1 (by decide)

/-- C7 counterexample: Model construction accepts a world whose lattice
name is not among the registered sublattice names, so the claimed rejection
at construction does not happen. -/
theorem counterexample_C7 :
    mkModel "MB" boolMany [wBad] wBad none none none = .ok MBad
  ∧ wBad ∈ MBad.worlds
  ∧ wBad.lattice.name ∉ MBad.many_lattice.comp_sub_lat.map Lattice.name := by
  refine ⟨by decide, by decide, by decide⟩

/-- C7 amended: only add_world enforces the lattice-name invariant: it
succeeds exactly when the short name is fresh and the world's lattice name
is registered, appending the world and preserving the invariant; Model
construction stores the given worlds set without any lattice check. -/
theorem claim_C7_amended (M : Model) (w : World) :
    ((∃ M2, M.add_world w = .ok M2) ↔
      (M.get_world w.name_short = none ∧
        w.lattice.name ∈ M.many_lattice.comp_sub_lat.map Lattice.name))
  ∧ (∀ M2, M.add_world w = .ok M2 →
      M2.worlds = M.worlds ++ [w] ∧ M2.many_lattice = M.many_lattice)
  ∧ (∀ M2, M.add_world w = .ok M2 →
      (∀ u ∈ M.worlds, u.lattice.name ∈ M.many_lattice.comp_sub_lat.map Lattice.name) →
      ∀ u ∈ M2.worlds, u.lattice.name ∈ M2.many_lattice.comp_sub_lat.map Lattice.name)
  ∧ (∀ nm ml ws ini acc pr ac M3, mkModel nm ml ws ini acc pr ac = .ok M3 →
      M3.worlds = ws ∧ M3.many_lattice = ml) := by
  have hok : ∀ M2, M.add_world w = .ok M2 →
      (M.get_world w.name_short = none ∧
        w.lattice.name ∈ M.many_lattice.comp_sub_lat.map Lattice.name ∧
        M2.worlds = M.worlds ++ [w] ∧ M2.many_lattice = M.many_lattice) := by
    intro M2 h
    rw [Model.add_world] at h
    cases hg : M.get_world w.name_short with
    | some u => rw [hg] at h; cases h
    | none =>
      rw [hg] at h
      by_cases hr : w.lattice.name ∈ M.many_lattice.comp_sub_lat.map Lattice.name
      · rw [if_neg (by simpa using hr)] at h
        cases h
        exact ⟨rfl, hr, rfl, rfl⟩
      · rw [if_pos (by simpa using hr)] at h
        cases h
  refine ⟨⟨fun ⟨M2, h⟩ => ⟨(hok M2 h).1, (hok M2 h).2.1⟩, ?_⟩,
    fun M2 h => ⟨(hok M2 h).2.2.1, (hok M2 h).2.2.2⟩, ?_, ?_⟩
  · intro ⟨hg, hr⟩
    cases hcase : M.add_world w with
    | ok M2 => exact ⟨M2, rfl⟩
    | error e =>
      rw [Model.add_world, hg, if_neg (by simpa using hr)] at hcase
      cases hcase
  · intro M2 h hall u hu
    obtain ⟨-, hr, hws, hml⟩ := hok M2 h
    rw [hws, List.mem_append] at hu
    rw [hml]
    cases hu with
    | inl hu => exact hall u hu
    | inr hu => rw [List.mem_singleton] at hu; subst hu; exact hr
  · intro nm ml ws ini acc pr ac M3 h
    rw [mkModel] at h
    cases h
    exact ⟨rfl, rfl⟩

/-- C7 witness: adding a fresh world with a registered lattice to the
scenario model succeeds, by the amended theorem. -/
theorem claim_C7_witness : ∃ M2, M1.add_world w2 = .ok M2 :=
  (claim_C7_amended M1 w2).1.mpr ⟨by decide, by decide⟩

/-- C8: for a member world, delete_world fails exactly when the world has
an outgoing or an incoming accessibility edge (failure produces no model
state, so nothing is mutated), and otherwise removes exactly that world
from the worlds set and exactly its entry from the accessibility relation,
leaving every other world and edge unchanged. -/
theorem claim_C8 (M : Model) (w : World) (hmem : w ∈ M.worlds) :
    ((∃ e, M.delete_world w = .error e) ↔
      (accGet M w ≠ [] ∨ ∃ p ∈ M.accessibility_relation, w ∈ p.2))
  ∧ ((accGet M w = [] ∧ ∀ p ∈ M.accessibility_relation, w ∉ p.2) →
      M.delete_world w = .ok { M with
        accessibility_relation :=
          M.accessibility_relation.eraseP (fun p => p.1 == w),
        worlds := M.worlds.erase w }) := by
  by_cases hout : accGet M w = []
  · cases hf : M.accessibility_relation.find? (fun p => decide (w ∈ p.2)) with
    | some p =>
      have hd : M.delete_world w =
          .error (.valueError "Another world points to it. Remove relation first.") := by
        rw [Model.delete_world, if_neg (by simp [hout]), hf]
      have hpm := List.mem_of_find?_eq_some hf
      have hpw : w ∈ p.2 := by simpa using List.find?_some hf
      refine ⟨⟨fun _ => .inr ⟨p, hpm, hpw⟩, fun _ => ⟨_, hd⟩⟩, ?_⟩
      intro ⟨_, hnone⟩
      exact absurd hpw (hnone p hpm)
    | none =>
      have hd : M.delete_world w = .ok { M with
          accessibility_relation :=
            M.accessibility_relation.eraseP (fun p => p.1 == w),
          worlds := M.worlds.erase w } := by
        rw [Model.delete_world, if_neg (by simp [hout]), hf]
        dsimp only
        rw [if_pos hmem]
      refine ⟨⟨?_, ?_⟩, fun _ => hd⟩
      · intro ⟨e, he⟩
        rw [hd] at he
        cases he
      · intro hcon
        cases hcon with
        | inl h => exact absurd hout h
        | inr h =>
          obtain ⟨p, hpm, hpw⟩ := h
          rw [List.find?_eq_none] at hf
          exact absurd (by simpa using hpw) (hf p hpm)
  · have hd : M.delete_world w =
        .error (.valueError "World has outgoing relations. Delete them first.") := by
      rw [Model.delete_world, if_pos hout]
    refine ⟨⟨fun _ => .inl hout, fun _ => ⟨_, hd⟩⟩, ?_⟩
    intro ⟨h1, _⟩
    exact absurd h1 hout

/-- C8 witness: the scenario world has no edges, and deleting it removes
exactly that world and its accessibility entry. -/
theorem claim_C8_witness :
    M1.delete_world w1 = .ok { M1 with
      accessibility_relation := M1.accessibility_relation.eraseP (fun p => p.1 == w1),
      worlds := M1.worlds.erase w1 } :=
  (claim_C8 M1 w1 (by decide)).2 ⟨by decide, by decide⟩

/-- Any list permutation evaluates `all` identically. -/
theorem perm_all_eq {l1 l2 : List String} (hp : l1.Perm l2) (f : String → Bool) :
    l1.all f = l2.all f := by
  rw [List.all_eq, List.all_eq]
  exact decide_eq_decide.mpr
    ⟨fun h x hx => h x (hp.mem_iff.mpr hx), fun h x hx => h x (hp.mem_iff.mp hx)⟩

/-- The meet scan is symmetric in its two arguments. -/
theorem meetOn_comm (es : List String) (rs : List (String × String)) (a b : String) :
    meetOn es rs a b = meetOn es rs b a := by
  have hlb : lowerBoundsOf es rs a b = lowerBoundsOf es rs b a := by
    unfold lowerBoundsOf
    exact List.filter_congr (fun x _ => Bool.and_comm _ _)
  unfold meetOn
  rw [hlb]
  by_cases h : a ∉ es ∨ b ∉ es
  · rw [if_pos h, if_pos (Or.symm h)]
  · rw [if_neg h, if_neg (fun hc => h (Or.symm hc))]

/-- The join scan is symmetric in its two arguments. -/
theorem joinOn_comm (es : List String) (rs : List (String × String)) (a b : String) :
    joinOn es rs a b = joinOn es rs b a := by
  have hub : upperBoundsOf es rs a b = upperBoundsOf es rs b a := by
    unfold upperBoundsOf
    exact List.filter_congr (fun x _ => Bool.and_comm _ _)
  unfold joinOn
  rw [hub]
  by_cases h : a ∉ es ∨ b ∉ es
  · rw [if_pos h, if_pos (Or.symm h)]
  · rw [if_neg h, if_neg (fun hc => h (Or.symm hc))]

/-- Under reflexivity at `a` and antisymmetry, the meet of `a` with itself
is `a`. -/
theorem meetOn_self {es : List String} {rs : List (String × String)} {a : String}
    (ha : a ∈ es) (hra : isLEb rs a a = true)
    (hanti : ∀ p ∈ rs, ∀ q ∈ rs, p.1 = q.2 → p.2 = q.1 → p.1 = p.2) :
    meetOn es rs a a = .ok a := by
  have halb : a ∈ lowerBoundsOf es rs a a := by
    rw [lowerBoundsOf, List.mem_filter]
    exact ⟨ha, by rw [Bool.and_eq_true]; exact ⟨hra, hra⟩⟩
  unfold meetOn
  rw [if_neg (by tauto)]
  rw [if_neg (by rw [List.isEmpty_iff]; intro h; rw [h] at halb; cases halb)]
  cases hf : (lowerBoundsOf es rs a a).find?
      (fun x => (lowerBoundsOf es rs a a).all (fun y => isLEb rs y x)) with
  | none =>
    exfalso
    rw [List.find?_eq_none] at hf
    apply hf a halb
    rw [List.all_eq_true]
    intro y hy
    rw [lowerBoundsOf, List.mem_filter, Bool.and_eq_true] at hy
    exact hy.2.1
  | some c =>
    have hcm := List.mem_of_find?_eq_some hf
    have hcp := List.find?_some hf
    rw [lowerBoundsOf, List.mem_filter, Bool.and_eq_true] at hcm
    have hca : isLEb rs c a = true := hcm.2.1
    rw [List.all_eq_true] at hcp
    have hac : isLEb rs a c = true := hcp a halb
    rw [isLEb_iff] at hca hac
    have heq : c = a := hanti (c, a) hca (a, c) hac rfl rfl
    rw [heq]

/-- Under reflexivity at `a` and antisymmetry, the join of `a` with itself
is `a`. -/
theorem joinOn_self {es : List String} {rs : List (String × String)} {a : String}
    (ha : a ∈ es) (hra : isLEb rs a a = true)
    (hanti : ∀ p ∈ rs, ∀ q ∈ rs, p.1 = q.2 → p.2 = q.1 → p.1 = p.2) :
    joinOn es rs a a = .ok a := by
  have haub : a ∈ upperBoundsOf es rs a a := by
    rw [upperBoundsOf, List.mem_filter]
    exact ⟨ha, by rw [Bool.and_eq_true]; exact ⟨hra, hra⟩⟩
  unfold joinOn
  rw [if_neg (by tauto)]
  rw [if_neg (by rw [List.isEmpty_iff]; intro h; rw [h] at haub; cases haub)]
  cases hf : (upperBoundsOf es rs a a).find?
      (fun x => (upperBoundsOf es rs a a).all (fun y => isLEb rs x y)) with
  | none =>
    exfalso
    rw [List.find?_eq_none] at hf
    apply hf a haub
    rw [List.all_eq_true]
    intro y hy
    rw [upperBoundsOf, List.mem_filter, Bool.and_eq_true] at hy
    exact hy.2.1
  | some c =>
    have hcm := List.mem_of_find?_eq_some hf
    have hcp := List.find?_some hf
    rw [upperBoundsOf, List.mem_filter, Bool.and_eq_true] at hcm
    have hac : isLEb rs a c = true := hcm.2.1
    rw [List.all_eq_true] at hcp
    have hca : isLEb rs c a = true := hcp a haub
    rw [isLEb_iff] at hca hac
    have heq : c = a := hanti (c, a) hca (a, c) hac rfl rfl
    rw [heq]

/-- Under antisymmetry, the meet scan is independent of the element-scan
order: any permutation of the element list yields the same outcome. -/
theorem meetOn_perm {es es2 : List String} {rs : List (String × String)} {a b : String}
    (hperm : es.Perm es2)
    (hanti : ∀ p ∈ rs, ∀ q ∈ rs, p.1 = q.2 → p.2 = q.1 → p.1 = p.2) :
    meetOn es rs a b = meetOn es2 rs a b := by
  have hlbperm : (lowerBoundsOf es rs a b).Perm (lowerBoundsOf es2 rs a b) :=
    hperm.filter _
  unfold meetOn
  by_cases hg : a ∉ es ∨ b ∉ es
  · have hg2 : a ∉ es2 ∨ b ∉ es2 := by
      cases hg with
      | inl h => exact .inl (fun hx => h (hperm.mem_iff.mpr hx))
      | inr h => exact .inr (fun hx => h (hperm.mem_iff.mpr hx))
    rw [if_pos hg, if_pos hg2]
  · have hg2 : ¬(a ∉ es2 ∨ b ∉ es2) := by
      intro hc
      apply hg
      cases hc with
      | inl h => exact .inl (fun hx => h (hperm.mem_iff.mp hx))
      | inr h => exact .inr (fun hx => h (hperm.mem_iff.mp hx))
    rw [if_neg hg, if_neg hg2]
    by_cases he : (lowerBoundsOf es rs a b).isEmpty = true
    · have he2 : (lowerBoundsOf es2 rs a b).isEmpty = true := by
        rw [List.isEmpty_iff] at he ⊢
        rw [he] at hlbperm
        exact List.perm_nil.mp hlbperm.symm
      rw [if_pos he, if_pos he2]
    · have he2 : ¬(lowerBoundsOf es2 rs a b).isEmpty = true := by
        rw [List.isEmpty_iff] at he ⊢
        intro h2
        rw [h2] at hlbperm
        exact he (List.perm_nil.mp hlbperm)
      rw [if_neg he, if_neg he2]
      have hpred : ∀ x, ((lowerBoundsOf es rs a b).all (fun y => isLEb rs y x)) =
          ((lowerBoundsOf es2 rs a b).all (fun y => isLEb rs y x)) :=
        fun x => perm_all_eq hlbperm _
      cases hf1 : (lowerBoundsOf es rs a b).find?
          (fun x => (lowerBoundsOf es rs a b).all (fun y => isLEb rs y x)) with
      | none =>
        have hf2 : (lowerBoundsOf es2 rs a b).find?
            (fun x => (lowerBoundsOf es2 rs a b).all (fun y => isLEb rs y x)) = none := by
          rw [List.find?_eq_none] at hf1 ⊢
          intro x hx
          rw [← hpred x]
          exact hf1 x (hlbperm.mem_iff.mpr hx)
        rw [hf2]
      | some c1 =>
        have hs2 : ((lowerBoundsOf es2 rs a b).find?
            (fun x => (lowerBoundsOf es2 rs a b).all (fun y => isLEb rs y x))).isSome = true := by
          rw [List.find?_isSome]
          refine ⟨c1, hlbperm.mem_iff.mp (List.mem_of_find?_eq_some hf1), ?_⟩
          have hp1 := List.find?_some hf1
          rw [List.all_eq_true] at hp1
          rw [List.all_eq_true]
          intro y hy
          exact hp1 y (hlbperm.mem_iff.mpr hy)
        obtain ⟨c2, hf2⟩ := Option.isSome_iff_exists.mp hs2
        have hc1m := List.mem_of_find?_eq_some hf1
        have hc2m := List.mem_of_find?_eq_some hf2
        have hc1p := List.find?_some hf1
        have hc2p := List.find?_some hf2
        rw [List.all_eq_true] at hc1p hc2p
        have h12 : isLEb rs c2 c1 = true := hc1p c2 (hlbperm.mem_iff.mpr hc2m)
        have h21 : isLEb rs c1 c2 = true := hc2p c1 (hlbperm.mem_iff.mp hc1m)
        rw [isLEb_iff] at h12 h21
        have heq : c2 = c1 := hanti (c2, c1) h12 (c1, c2) h21 rfl rfl
        rw [hf2, heq]

/-- Under antisymmetry, the join scan is independent of the element-scan
order, dually. -/
theorem joinOn_perm {es es2 : List String} {rs : List (String × String)} {a b : String}
    (hperm : es.Perm es2)
    (hanti : ∀ p ∈ rs, ∀ q ∈ rs, p.1 = q.2 → p.2 = q.1 → p.1 = p.2) :
    joinOn es rs a b = joinOn es2 rs a b := by
  have hubperm : (upperBoundsOf es rs a b).Perm (upperBoundsOf es2 rs a b) :=
    hperm.filter _
  unfold joinOn
  by_cases hg : a ∉ es ∨ b ∉ es
  · have hg2 : a ∉ es2 ∨ b ∉ es2 := by
      cases hg with
      | inl h => exact .inl (fun hx => h (hperm.mem_iff.mpr hx))
      | inr h => exact .inr (fun hx => h (hperm.mem_iff.mpr hx))
    rw [if_pos hg, if_pos hg2]
  · have hg2 : ¬(a ∉ es2 ∨ b ∉ es2) := by
      intro hc
      apply hg
      cases hc with
      | inl h => exact .inl (fun hx => h (hperm.mem_iff.mp hx))
      | inr h => exact .inr (fun hx => h (hperm.mem_iff.mp hx))
    rw [if_neg hg, if_neg hg2]
    by_cases he : (upperBoundsOf es rs a b).isEmpty = true
    · have he2 : (upperBoundsOf es2 rs a b).isEmpty = true := by
        rw [List.isEmpty_iff] at he ⊢
        rw [he] at hubperm
        exact List.perm_nil.mp hubperm.symm
      rw [if_pos he, if_pos he2]
    · have he2 : ¬(upperBoundsOf es2 rs a b).isEmpty = true := by
        rw [List.isEmpty_iff] at he ⊢
        intro h2
        rw [h2] at hubperm
        exact he (List.perm_nil.mp hubperm)
      rw [if_neg he, if_neg he2]
      have hpred : ∀ x, ((upperBoundsOf es rs a b).all (fun y => isLEb rs x y)) =
          ((upperBoundsOf es2 rs a b).all (fun y => isLEb rs x y)) :=
        fun x => perm_all_eq hubperm _
      cases hf1 : (upperBoundsOf es rs a b).find?
          (fun x => (upperBoundsOf es rs a b).all (fun y => isLEb rs x y)) with
      | none =>
        have hf2 : (upperBoundsOf es2 rs a b).find?
            (fun x => (upperBoundsOf es2 rs a b).all (fun y => isLEb rs x y)) = none := by
          rw [List.find?_eq_none] at hf1 ⊢
          intro x hx
          rw [← hpred x]
          exact hf1 x (hubperm.mem_iff.mpr hx)
        rw [hf2]
      | some c1 =>
        have hs2 : ((upperBoundsOf es2 rs a b).find?
            (fun x => (upperBoundsOf es2 rs a b).all (fun y => isLEb rs x y))).isSome = true := by
          rw [List.find?_isSome]
          refine ⟨c1, hubperm.mem_iff.mp (List.mem_of_find?_eq_some hf1), ?_⟩
          have hp1 := List.find?_some hf1
          rw [List.all_eq_true] at hp1
          rw [List.all_eq_true]
          intro y hy
          exact hp1 y (hubperm.mem_iff.mpr hy)
        obtain ⟨c2, hf2⟩ := Option.isSome_iff_exists.mp hs2
        have hc1m := List.mem_of_find?_eq_some hf1
        have hc2m := List.mem_of_find?_eq_some hf2
        have hc1p := List.find?_some hf1
        have hc2p := List.find?_some hf2
        rw [List.all_eq_true] at hc1p hc2p
        have h12 : isLEb rs c1 c2 = true := hc1p c2 (hubperm.mem_iff.mpr hc2m)
        have h21 : isLEb rs c2 c1 = true := hc2p c1 (hubperm.mem_iff.mp hc1m)
        rw [isLEb_iff] at h12 h21
        have heq : c1 = c2 := hanti (c1, c2) h12 (c2, c1) h21 rfl rfl
        rw [hf2, heq]

/-- C4 counterexample: the lattice `K4` is validly constructed (the closure
check passes), yet meet(a, a) returns b rather than a, and scanning the
same element set in the other order returns a different result, so
idempotence and scan-order independence both fail. -/
theorem counterexample_C4 :
    mkLattice "K" ["b", "a"] [("a", "a"), ("a", "b"), ("b", "a"), ("b", "b")] [] []
      = .ok K4
  ∧ checkIsLattice K4.elements K4.relations = true
  ∧ K4.meet "a" "a" = .ok "b"
  ∧ (Except.ok "b" : Except PyErr String) ≠ .ok "a"
  ∧ K4.elements.Perm ["a", "b"]
  ∧ meetOn ["a", "b"] K4.relations "a" "a" = .ok "a"
  ∧ meetOn ["a", "b"] K4.relations "a" "a" ≠ K4.meet "a" "a" := by
  refine ⟨by decide, by decide, by decide, by decide, by decide, by decide, by decide⟩

/-- C4 amended: in a validly constructed lattice whose relation is moreover
reflexive on the elements and antisymmetric, meet and join return without
error, are commutative, idempotent, and independent of the element-scan
order. The closure check alone does not enforce antisymmetry, and without
it idempotence and scan-order independence fail (see the counterexample);
commutativity and existence need no extra assumptions. -/
theorem claim_C4_amended (L : Lattice) (a b : String) (es2 : List String)
    (hchk : checkIsLattice L.elements L.relations = true)
    (ha : a ∈ L.elements) (hb : b ∈ L.elements)
    (hrefl : ∀ x ∈ L.elements, isLEb L.relations x x = true)
    (hanti : ∀ p ∈ L.relations, ∀ q ∈ L.relations, p.1 = q.2 → p.2 = q.1 → p.1 = p.2)
    (hperm : L.elements.Perm es2) :
    (∃ c, L.meet a b = .ok c) ∧ (∃ c, L.join a b = .ok c)
  ∧ L.meet a b = L.meet b a ∧ L.join a b = L.join b a
  ∧ L.meet a a = .ok a ∧ L.join a a = .ok a
  ∧ meetOn es2 L.relations a b = L.meet a b
  ∧ joinOn es2 L.relations a b = L.join a b :=
  ⟨check_meet_ok hchk ha hb, check_join_ok hchk ha hb,
   meetOn_comm L.elements L.relations a b, joinOn_comm L.elements L.relations a b,
   meetOn_self ha (hrefl a ha) hanti, joinOn_self ha (hrefl a ha) hanti,
   (meetOn_perm hperm hanti).symm, (joinOn_perm hperm hanti).symm⟩

/-- C4 witness: the Boolean lattice with its two elements and the reversed
scan order satisfies every hypothesis, and all eight conclusions hold. -/
theorem claim_C4_witness :
    (∃ c, boolLat.meet "0" "1" = .ok c) ∧ (∃ c, boolLat.join "0" "1" = .ok c)
  ∧ boolLat.meet "0" "1" = boolLat.meet "1" "0"
  ∧ boolLat.join "0" "1" = boolLat.join "1" "0"
  ∧ boolLat.meet "0" "0" = .ok "0" ∧ boolLat.join "0" "0" = .ok "0"
  ∧ meetOn ["1", "0"] boolLat.relations "0" "1" = boolLat.meet "0" "1"
  ∧ joinOn ["1", "0"] boolLat.relations "0" "1" = boolLat.join "0" "1" :=
  claim_C4_amended boolLat "0" "1" ["1", "0"] (by decide) (by decide) (by decide)
    (by decide) (by decide) (by decide)

/-- The left fold of `join` produces an element above the seed and every
folded element (using transitivity restricted to the element set), and
below every common upper bound. -/
theorem foldlM_join_ok {es : List String} {rs : List (String × String)}
    (hchk : checkIsLattice es rs = true)
    (htr : ∀ x y z, x ∈ es → y ∈ es → z ∈ es → isLEb rs x y = true →
      isLEb rs y z = true → isLEb rs x z = true) :
    ∀ (l : List String) (g : String), g ∈ es → (∀ t ∈ l, t ∈ es) →
      ∃ s, l.foldlM (fun acc e => joinOn es rs acc e) g = .ok s ∧ s ∈ es ∧
        (s = g ∨ isLEb rs g s = true) ∧
        (∀ t ∈ l, isLEb rs t s = true) ∧
        (∀ u ∈ es, isLEb rs g u = true → (∀ t ∈ l, isLEb rs t u = true) →
          isLEb rs s u = true) := by
  intro l
  induction l with
  | nil =>
    intro g hg _
    exact ⟨g, rfl, hg, .inl rfl, by simp, fun u _ hgu _ => hgu⟩
  | cons t ts ih =>
    intro g hg hl
    have hte : t ∈ es := hl t (List.mem_cons_self t ts)
    obtain ⟨c, hc⟩ := check_join_ok hchk hg hte
    obtain ⟨hce, hgc, htc, hcleast⟩ := joinOn_ok hc
    obtain ⟨s, hs, hse, hcs, hts, hleast⟩ :=
      ih c hce (fun x hx => hl x (List.mem_cons_of_mem t hx))
    refine ⟨s, ?_, hse, ?_, ?_, ?_⟩
    · rw [List.foldlM_cons, hc]
      exact hs
    · right
      cases hcs with
      | inl h => rw [h]; exact hgc
      | inr h => exact htr g c s hg hce hse hgc h
    · intro x hx
      rw [List.mem_cons] at hx
      cases hx with
      | inl h =>
        subst h
        cases hcs with
        | inl h2 => rw [h2]; exact htc
        | inr h2 => exact htr x c s hte hce hse htc h2
      | inr h => exact hts x h
    · intro u hu hgu hall
      have hcu : isLEb rs c u = true :=
        hcleast u hu hgu (hall t (List.mem_cons_self t ts))
      exact hleast u hu hcu (fun x hx => hall x (List.mem_cons_of_mem t hx))

/-- The left fold of `meet`, dually. -/
theorem foldlM_meet_ok {es : List String} {rs : List (String × String)}
    (hchk : checkIsLattice es rs = true)
    (htr : ∀ x y z, x ∈ es → y ∈ es → z ∈ es → isLEb rs x y = true →
      isLEb rs y z = true → isLEb rs x z = true) :
    ∀ (l : List String) (g : String), g ∈ es → (∀ t ∈ l, t ∈ es) →
      ∃ s, l.foldlM (fun acc e => meetOn es rs acc e) g = .ok s ∧ s ∈ es ∧
        (s = g ∨ isLEb rs s g = true) ∧
        (∀ t ∈ l, isLEb rs s t = true) ∧
        (∀ u ∈ es, isLEb rs u g = true → (∀ t ∈ l, isLEb rs u t = true) →
          isLEb rs u s = true) := by
  intro l
  induction l with
  | nil =>
    intro g hg _
    exact ⟨g, rfl, hg, .inl rfl, by simp, fun u _ hgu _ => hgu⟩
  | cons t ts ih =>
    intro g hg hl
    have hte : t ∈ es := hl t (List.mem_cons_self t ts)
    obtain ⟨c, hc⟩ := check_meet_ok hchk hg hte
    obtain ⟨hce, hcg, hct, hcgreat⟩ := meetOn_ok hc
    obtain ⟨s, hs, hse, hsc, hst, hgreat⟩ :=
      ih c hce (fun x hx => hl x (List.mem_cons_of_mem t hx))
    refine ⟨s, ?_, hse, ?_, ?_, ?_⟩
    · rw [List.foldlM_cons, hc]
      exact hs
    · right
      cases hsc with
      | inl h => rw [h]; exact hcg
      | inr h => exact htr s c g hse hce hg h hcg
    · intro x hx
      rw [List.mem_cons] at hx
      cases hx with
      | inl h =>
        subst h
        cases hsc with
        | inl h2 => rw [h2]; exact hct
        | inr h2 => exact htr s c x hse hce hte h2 hct
      | inr h => exact hst x h
    · intro u hu hug hall
      have huc : isLEb rs u c = true :=
        hcgreat u hu hug (hall t (List.mem_cons_self t ts))
      exact hgreat u hu huc (fun x hx => hall x (List.mem_cons_of_mem t hx))

/-- A nonempty `join_set` computes an upper bound of the subset that is
below every common upper bound. -/
theorem joinSetAux_ok {es : List String} {rs : List (String × String)}
    (hchk : checkIsLattice es rs = true)
    (htr : ∀ x y z, x ∈ es → y ∈ es → z ∈ es → isLEb rs x y = true →
      isLEb rs y z = true → isLEb rs x z = true)
    {fb : Except PyErr String} {subset : List String} (hne : subset ≠ [])
    (hsub : ∀ t ∈ subset, t ∈ es) :
    ∃ s, joinSetAux es rs fb subset = .ok s ∧ s ∈ es ∧
      (∀ t ∈ subset, isLEb rs t s = true) ∧
      (∀ u ∈ es, (∀ t ∈ subset, isLEb rs t u = true) → isLEb rs s u = true) := by
  match subset, hne with
  | x :: xs, _ =>
    have hx : x ∈ es := hsub x (List.mem_cons_self x xs)
    obtain ⟨s, hs, hse, _, hts, hleast⟩ := foldlM_join_ok hchk htr (x :: xs) x hx hsub
    exact ⟨s, hs, hse, hts,
      fun u hu hall => hleast u hu (hall x (List.mem_cons_self x xs)) hall⟩

/-- A nonempty `meet_set`, dually. -/
theorem meetSetAux_ok {es : List String} {rs : List (String × String)}
    (hchk : checkIsLattice es rs = true)
    (htr : ∀ x y z, x ∈ es → y ∈ es → z ∈ es → isLEb rs x y = true →
      isLEb rs y z = true → isLEb rs x z = true)
    {fb : Except PyErr String} {subset : List String} (hne : subset ≠ [])
    (hsub : ∀ t ∈ subset, t ∈ es) :
    ∃ s, meetSetAux es rs fb subset = .ok s ∧ s ∈ es ∧
      (∀ t ∈ subset, isLEb rs s t = true) ∧
      (∀ u ∈ es, (∀ t ∈ subset, isLEb rs u t = true) → isLEb rs u s = true) := by
  match subset, hne with
  | x :: xs, _ =>
    have hx : x ∈ es := hsub x (List.mem_cons_self x xs)
    obtain ⟨s, hs, hse, _, hst, hgreat⟩ := foldlM_meet_ok hchk htr (x :: xs) x hx hsub
    exact ⟨s, hs, hse, hst,
      fun u hu hall => hgreat u hu (hall x (List.mem_cons_self x xs)) hall⟩

/-- The attributes a successful lattice construction determines. -/
theorem mkLattice_fields {n : String} {es : List String} {rs : List (String × String)}
    {nm : List (String × String)} {im : List ((String × String) × String)} {L : Lattice}
    (h : mkLattice n es rs nm im = .ok L) :
    L.name = n ∧ L.elements = es ∧ L.relations = rs ∧ L.negation_map = nm ∧
    L.implication_map = im ∧ checkIsLattice es rs = true ∧ es ≠ [] ∧
    meetSetAux es rs (.error (.attributeError "Lattice object has no attribute top")) es
      = .ok L.bottom ∧
    joinSetAux es rs (.ok L.bottom) es = .ok L.top := by
  rw [mkLattice] at h
  by_cases hchk : checkIsLattice es rs = true
  · rw [if_pos hchk] at h
    cases hb : meetSetAux es rs
        (.error (.attributeError "Lattice object has no attribute top")) es with
    | error e => rw [hb] at h; cases h
    | ok bottom =>
      rw [hb] at h
      dsimp only at h
      cases ht : joinSetAux es rs (.ok bottom) es with
      | error e => rw [ht] at h; cases h
      | ok top =>
        rw [ht] at h
        dsimp only at h
        cases h
        refine ⟨rfl, rfl, rfl, rfl, rfl, hchk, ?_, rfl, ?_⟩
        · intro hnil
          subst hnil
          simp [meetSetAux] at hb
        · exact ht
  · rw [if_neg hchk] at h
    cases h

/-- In a constructed lattice (with transitivity on its elements), the
derived bottom is an element below every element. -/
theorem lattice_bottom_spec {L : Lattice}
    (hmk : mkLattice L.name L.elements L.relations L.negation_map L.implication_map
      = .ok L)
    (htr : ∀ x y z, x ∈ L.elements → y ∈ L.elements → z ∈ L.elements →
      isLEb L.relations x y = true → isLEb L.relations y z = true →
      isLEb L.relations x z = true) :
    L.bottom ∈ L.elements ∧ ∀ y ∈ L.elements, isLEb L.relations L.bottom y = true := by
  obtain ⟨-, -, -, -, -, hchk, hne, hb, -⟩ := mkLattice_fields hmk
  obtain ⟨s, hs, hse, hst, -⟩ := meetSetAux_ok hchk htr hne (fun t ht => ht)
  rw [hs] at hb
  injection hb with h
  rw [← h]
  exact ⟨hse, hst⟩

/-- In a constructed lattice (with transitivity on its elements), the
derived top is an element above every element. -/
theorem lattice_top_spec {L : Lattice}
    (hmk : mkLattice L.name L.elements L.relations L.negation_map L.implication_map
      = .ok L)
    (htr : ∀ x y z, x ∈ L.elements → y ∈ L.elements → z ∈ L.elements →
      isLEb L.relations x y = true → isLEb L.relations y z = true →
      isLEb L.relations x z = true) :
    L.top ∈ L.elements ∧ ∀ y ∈ L.elements, isLEb L.relations y L.top = true := by
  obtain ⟨-, -, -, -, -, hchk, hne, -, ht⟩ := mkLattice_fields hmk
  obtain ⟨s, hs, hse, hts, -⟩ := joinSetAux_ok hchk htr hne (fun t hmem => hmem)
  rw [hs] at ht
  injection ht with h
  rw [← h]
  exact ⟨hse, hts⟩

/-- Monotonicity of the down interpretation, under: registration of the
sublattice, a successful construction of the sublattice, containment of its
elements in the base elements, agreement of its order with the base order
on its elements, and reflexivity plus transitivity of the base order. -/
theorem down_interpretation_mono (M : ManyLattice) (L : Lattice) (a b : String)
    (hreg : L.name ∈ M.comp_sub_lat.map Lattice.name)
    (hmkL : mkLattice L.name L.elements L.relations L.negation_map L.implication_map
      = .ok L)
    (hsub : ∀ x ∈ L.elements, x ∈ M.toLattice.elements)
    (hrestr : ∀ x ∈ L.elements, ∀ y ∈ L.elements,
      isLEb L.relations x y = isLEb M.toLattice.relations x y)
    (hrefl : ∀ x ∈ M.toLattice.elements, isLEb M.toLattice.relations x x = true)
    (htrB : ∀ p ∈ M.toLattice.relations, ∀ q ∈ M.toLattice.relations,
      p.2 = q.1 → (p.1, q.2) ∈ M.toLattice.relations)
    (hab : isLEb M.toLattice.relations a b = true) :
    ∃ va vb, M.down_interpretation L a = .ok va ∧ M.down_interpretation L b = .ok vb ∧
      isLEb L.relations va vb = true := by
  have htrB2 : ∀ x y z, isLEb M.toLattice.relations x y = true →
      isLEb M.toLattice.relations y z = true →
      isLEb M.toLattice.relations x z = true := by
    intro x y z h1 h2
    rw [isLEb_iff] at h1 h2 ⊢
    exact htrB (x, y) h1 (y, z) h2 rfl
  have htrL : ∀ x y z, x ∈ L.elements → y ∈ L.elements → z ∈ L.elements →
      isLEb L.relations x y = true → isLEb L.relations y z = true →
      isLEb L.relations x z = true := by
    intro x y z hx hy hz h1 h2
    rw [hrestr x hx y hy] at h1
    rw [hrestr y hy z hz] at h2
    rw [hrestr x hx z hz]
    exact htrB2 x y z h1 h2
  have hLrefl : ∀ x ∈ L.elements, isLEb L.relations x x = true := by
    intro x hx
    rw [hrestr x hx x hx]
    exact hrefl x (hsub x hx)
  obtain ⟨-, -, -, -, -, hchk, -, -, -⟩ := mkLattice_fields hmkL
  have hbots := lattice_bottom_spec hmkL htrL
  have hregb : ¬ (L.name ∉ M.comp_sub_lat.map Lattice.name) := not_not.mpr hreg
  have hSmem : ∀ x t, t ∈ lowerSetOf M L x →
      t ∈ L.elements ∧ isLEb M.toLattice.relations t x = true := by
    intro x t ht
    rw [lowerSetOf, List.mem_filter] at ht
    exact ht
  have hSab : ∀ t ∈ lowerSetOf M L a, t ∈ lowerSetOf M L b := by
    intro t ht
    obtain ⟨hte, hta⟩ := hSmem a t ht
    rw [lowerSetOf, List.mem_filter]
    exact ⟨hte, htrB2 t a b hta hab⟩
  have hSsub : ∀ x, ∀ t ∈ lowerSetOf M L x, t ∈ L.elements :=
    fun x t ht => (hSmem x t ht).1
  by_cases haL : a ∈ L.elements
  · by_cases hbL : b ∈ L.elements
    · refine ⟨a, b, ?_, ?_, ?_⟩
      · rw [ManyLattice.down_interpretation, if_neg hregb, if_pos haL]
      · rw [ManyLattice.down_interpretation, if_neg hregb, if_pos hbL]
      · rw [hrestr a haL b hbL]
        exact hab
    · have haSb : a ∈ lowerSetOf M L b := by
        rw [lowerSetOf, List.mem_filter]
        exact ⟨haL, hab⟩
      have hSbne : lowerSetOf M L b ≠ [] := by
        intro h
        rw [h] at haSb
        cases haSb
      obtain ⟨s, hs, hse, hts, -⟩ := joinSetAux_ok hchk htrL hSbne (hSsub b)
      refine ⟨a, s, ?_, ?_, hts a haSb⟩
      · rw [ManyLattice.down_interpretation, if_neg hregb, if_pos haL]
      · rw [ManyLattice.down_interpretation, if_neg hregb, if_neg hbL,
          if_neg (fun hE => hSbne (List.isEmpty_iff.mp hE)), Lattice.join_set]
        exact hs
  · by_cases hbL : b ∈ L.elements
    · by_cases hSa : lowerSetOf M L a = []
      · refine ⟨L.bottom, b, ?_, ?_, hbots.2 b hbL⟩
        · rw [ManyLattice.down_interpretation, if_neg hregb, if_neg haL,
            if_pos (List.isEmpty_iff.mpr hSa)]
        · rw [ManyLattice.down_interpretation, if_neg hregb, if_pos hbL]
      · obtain ⟨s, hs, hse, hts, hleast⟩ := joinSetAux_ok hchk htrL hSa (hSsub a)
        refine ⟨s, b, ?_, ?_, ?_⟩
        · rw [ManyLattice.down_interpretation, if_neg hregb, if_neg haL,
            if_neg (fun hE => hSa (List.isEmpty_iff.mp hE)), Lattice.join_set]
          exact hs
        · rw [ManyLattice.down_interpretation, if_neg hregb, if_pos hbL]
        · apply hleast b hbL
          intro t ht
          obtain ⟨hte, hta⟩ := hSmem a t ht
          rw [hrestr t hte b hbL]
          exact htrB2 t a b hta hab
    · by_cases hSa : lowerSetOf M L a = []
      · by_cases hSb : lowerSetOf M L b = []
        · refine ⟨L.bottom, L.bottom, ?_, ?_, hLrefl L.bottom hbots.1⟩
          · rw [ManyLattice.down_interpretation, if_neg hregb, if_neg haL,
              if_pos (List.isEmpty_iff.mpr hSa)]
          · rw [ManyLattice.down_interpretation, if_neg hregb, if_neg hbL,
              if_pos (List.isEmpty_iff.mpr hSb)]
        · obtain ⟨s, hs, hse, -, -⟩ := joinSetAux_ok hchk htrL hSb (hSsub b)
          refine ⟨L.bottom, s, ?_, ?_, hbots.2 s hse⟩
          · rw [ManyLattice.down_interpretation, if_neg hregb, if_neg haL,
              if_pos (List.isEmpty_iff.mpr hSa)]
          · rw [ManyLattice.down_interpretation, if_neg hregb, if_neg hbL,
              if_neg (fun hE => hSb (List.isEmpty_iff.mp hE)), Lattice.join_set]
            exact hs
      · have hSbne : lowerSetOf M L b ≠ [] := by
          obtain ⟨t, ht⟩ := List.exists_mem_of_ne_nil (lowerSetOf M L a) hSa
          intro h
          have := hSab t ht
          rw [h] at this
          cases this
        obtain ⟨sa, hsa, hsae, hsat, hsaleast⟩ := joinSetAux_ok hchk htrL hSa (hSsub a)
        obtain ⟨sb, hsb, hsbe, hsbt, -⟩ := joinSetAux_ok hchk htrL hSbne (hSsub b)
        refine ⟨sa, sb, ?_, ?_, ?_⟩
        · rw [ManyLattice.down_interpretation, if_neg hregb, if_neg haL,
            if_neg (fun hE => hSa (List.isEmpty_iff.mp hE)), Lattice.join_set]
          exact hsa
        · rw [ManyLattice.down_interpretation, if_neg hregb, if_neg hbL,
            if_neg (fun hE => hSbne (List.isEmpty_iff.mp hE)), Lattice.join_set]
          exact hsb
        · apply hsaleast sb hsbe
          intro t ht
          exact hsbt t (hSab t ht)

/-- Monotonicity of the up interpretation, dually. -/
theorem up_interpretation_mono (M : ManyLattice) (L : Lattice) (a b : String)
    (hreg : L.name ∈ M.comp_sub_lat.map Lattice.name)
    (hmkL : mkLattice L.name L.elements L.relations L.negation_map L.implication_map
      = .ok L)
    (hsub : ∀ x ∈ L.elements, x ∈ M.toLattice.elements)
    (hrestr : ∀ x ∈ L.elements, ∀ y ∈ L.elements,
      isLEb L.relations x y = isLEb M.toLattice.relations x y)
    (hrefl : ∀ x ∈ M.toLattice.elements, isLEb M.toLattice.relations x x = true)
    (htrB : ∀ p ∈ M.toLattice.relations, ∀ q ∈ M.toLattice.relations,
      p.2 = q.1 → (p.1, q.2) ∈ M.toLattice.relations)
    (hab : isLEb M.toLattice.relations a b = true) :
    ∃ va vb, M.up_interpretation L a = .ok va ∧ M.up_interpretation L b = .ok vb ∧
      isLEb L.relations va vb = true := by
  have htrB2 : ∀ x y z, isLEb M.toLattice.relations x y = true →
      isLEb M.toLattice.relations y z = true →
      isLEb M.toLattice.relations x z = true := by
    intro x y z h1 h2
    rw [isLEb_iff] at h1 h2 ⊢
    exact htrB (x, y) h1 (y, z) h2 rfl
  have htrL : ∀ x y z, x ∈ L.elements → y ∈ L.elements → z ∈ L.elements →
      isLEb L.relations x y = true → isLEb L.relations y z = true →
      isLEb L.relations x z = true := by
    intro x y z hx hy hz h1 h2
    rw [hrestr x hx y hy] at h1
    rw [hrestr y hy z hz] at h2
    rw [hrestr x hx z hz]
    exact htrB2 x y z h1 h2
  have hLrefl : ∀ x ∈ L.elements, isLEb L.relations x x = true := by
    intro x hx
    rw [hrestr x hx x hx]
    exact hrefl x (hsub x hx)
  obtain ⟨-, -, -, -, -, hchk, -, -, -⟩ := mkLattice_fields hmkL
  have htops := lattice_top_spec hmkL htrL
  have hregb : ¬ (L.name ∉ M.comp_sub_lat.map Lattice.name) := not_not.mpr hreg
  have hUmem : ∀ x t, t ∈ upperSetOf M L x →
      t ∈ L.elements ∧ isLEb M.toLattice.relations x t = true := by
    intro x t ht
    rw [upperSetOf, List.mem_filter] at ht
    exact ht
  have hUba : ∀ t ∈ upperSetOf M L b, t ∈ upperSetOf M L a := by
    intro t ht
    obtain ⟨hte, hbt⟩ := hUmem b t ht
    rw [upperSetOf, List.mem_filter]
    exact ⟨hte, htrB2 a b t hab hbt⟩
  have hUsub : ∀ x, ∀ t ∈ upperSetOf M L x, t ∈ L.elements :=
    fun x t ht => (hUmem x t ht).1
  by_cases haL : a ∈ L.elements
  · by_cases hbL : b ∈ L.elements
    · refine ⟨a, b, ?_, ?_, ?_⟩
      · rw [ManyLattice.up_interpretation, if_neg hregb, if_pos haL]
      · rw [ManyLattice.up_interpretation, if_neg hregb, if_pos hbL]
      · rw [hrestr a haL b hbL]
        exact hab
    · by_cases hUb : upperSetOf M L b = []
      · refine ⟨a, L.top, ?_, ?_, htops.2 a haL⟩
        · rw [ManyLattice.up_interpretation, if_neg hregb, if_pos haL]
        · rw [ManyLattice.up_interpretation, if_neg hregb, if_neg hbL,
            if_pos (List.isEmpty_iff.mpr hUb)]
      · obtain ⟨s, hs, hse, hst, hgreat⟩ := meetSetAux_ok hchk htrL hUb (hUsub b)
        refine ⟨a, s, ?_, ?_, ?_⟩
        · rw [ManyLattice.up_interpretation, if_neg hregb, if_pos haL]
        · rw [ManyLattice.up_interpretation, if_neg hregb, if_neg hbL,
            if_neg (fun hE => hUb (List.isEmpty_iff.mp hE)), Lattice.meet_set]
          exact hs
        · apply hgreat a haL
          intro t ht
          obtain ⟨hte, hbt⟩ := hUmem b t ht
          rw [hrestr a haL t hte]
          exact htrB2 a b t hab hbt
  · by_cases hbL : b ∈ L.elements
    · have hbUa : b ∈ upperSetOf M L a := by
        rw [upperSetOf, List.mem_filter]
        exact ⟨hbL, hab⟩
      have hUane : upperSetOf M L a ≠ [] := by
        intro h
        rw [h] at hbUa
        cases hbUa
      obtain ⟨s, hs, hse, hst, -⟩ := meetSetAux_ok hchk htrL hUane (hUsub a)
      refine ⟨s, b, ?_, ?_, hst b hbUa⟩
      · rw [ManyLattice.up_interpretation, if_neg hregb, if_neg haL,
          if_neg (fun hE => hUane (List.isEmpty_iff.mp hE)), Lattice.meet_set]
        exact hs
      · rw [ManyLattice.up_interpretation, if_neg hregb, if_pos hbL]
    · by_cases hUa : upperSetOf M L a = []
      · have hUb : upperSetOf M L b = [] := by
          cases hU : upperSetOf M L b with
          | nil => rfl
          | cons t ts =>
            exfalso
            have ht : t ∈ upperSetOf M L b := by
              rw [hU]
              exact List.mem_cons_self t ts
            have := hUba t ht
            rw [hUa] at this
            cases this
        refine ⟨L.top, L.top, ?_, ?_, hLrefl L.top htops.1⟩
        · rw [ManyLattice.up_interpretation, if_neg hregb, if_neg haL,
            if_pos (List.isEmpty_iff.mpr hUa)]
        · rw [ManyLattice.up_interpretation, if_neg hregb, if_neg hbL,
            if_pos (List.isEmpty_iff.mpr hUb)]
      · by_cases hUb : upperSetOf M L b = []
        · obtain ⟨s, hs, hse, -, -⟩ := meetSetAux_ok hchk htrL hUa (hUsub a)
          refine ⟨s, L.top, ?_, ?_, htops.2 s hse⟩
          · rw [ManyLattice.up_interpretation, if_neg hregb, if_neg haL,
              if_neg (fun hE => hUa (List.isEmpty_iff.mp hE)), Lattice.meet_set]
            exact hs
          · rw [ManyLattice.up_interpretation, if_neg hregb, if_neg hbL,
              if_pos (List.isEmpty_iff.mpr hUb)]
        · obtain ⟨sa, hsa, hsae, hsat, -⟩ := meetSetAux_ok hchk htrL hUa (hUsub a)
          obtain ⟨sb, hsb, hsbe, hsbt, hsbgreat⟩ := meetSetAux_ok hchk htrL hUb (hUsub b)
          refine ⟨sa, sb, ?_, ?_, ?_⟩
          · rw [ManyLattice.up_interpretation, if_neg hregb, if_neg haL,
              if_neg (fun hE => hUa (List.isEmpty_iff.mp hE)), Lattice.meet_set]
            exact hsa
          · rw [ManyLattice.up_interpretation, if_neg hregb, if_neg hbL,
              if_neg (fun hE => hUb (List.isEmpty_iff.mp hE)), Lattice.meet_set]
            exact hsb
          · apply hsbgreat sa hsae
            intro t ht
            exact hsat t (hUba t ht)

/-- C3 counterexample: in the validly constructed many-lattice `M2` with
registered sublattice `L2`, the base relates 0 below 1, both project to
themselves, yet 0 is not below 1 in the sublattice order, so monotonicity
fails as claimed: registration checks only the name, never order
compatibility. -/
theorem counterexample_C3 :
    mkLattice "L2" ["0", "1"] [("0", "0"), ("1", "0"), ("1", "1")] [] [] = .ok L2
  ∧ mkManyLattice "BM2" "BF2" "B" ["0", "1"] [("0", "0"), ("0", "1"), ("1", "1")]
      [L2] [("0", "1"), ("1", "0")] [] none = .ok M2
  ∧ isLEb M2.toLattice.relations "0" "1" = true
  ∧ M2.down_interpretation L2 "0" = .ok "0"
  ∧ M2.down_interpretation L2 "1" = .ok "1"
  ∧ L2.is_less_than_or_equal "0" "1" = false
  ∧ isLEb L2.relations "0" "1" ≠ true := by
  refine ⟨by decide, by decide, by decide, by decide, by decide, by decide, by decide⟩

/-- C3 amended: with the sublattice registered, validly constructed, its
elements contained in the base elements, its order agreeing with the base
order on its elements, and the base order reflexive on the base elements
and transitive, base-order a below b implies
down_interpretation(L, a) below down_interpretation(L, b) in L's order,
and likewise for up_interpretation, with both calls succeeding. Without
the containment and order-agreement hypotheses (which no code path checks)
monotonicity fails, as the counterexample shows. -/
theorem claim_C3_amended (M : ManyLattice) (L : Lattice) (a b : String)
    (hreg : L.name ∈ M.comp_sub_lat.map Lattice.name)
    (hmkL : mkLattice L.name L.elements L.relations L.negation_map L.implication_map
      = .ok L)
    (hsub : ∀ x ∈ L.elements, x ∈ M.toLattice.elements)
    (hrestr : ∀ x ∈ L.elements, ∀ y ∈ L.elements,
      isLEb L.relations x y = isLEb M.toLattice.relations x y)
    (hrefl : ∀ x ∈ M.toLattice.elements, isLEb M.toLattice.relations x x = true)
    (htrB : ∀ p ∈ M.toLattice.relations, ∀ q ∈ M.toLattice.relations,
      p.2 = q.1 → (p.1, q.2) ∈ M.toLattice.relations)
    (hab : isLEb M.toLattice.relations a b = true) :
    (∃ va vb, M.down_interpretation L a = .ok va ∧
      M.down_interpretation L b = .ok vb ∧ isLEb L.relations va vb = true)
  ∧ (∃ va vb, M.up_interpretation L a = .ok va ∧
      M.up_interpretation L b = .ok vb ∧ isLEb L.relations va vb = true) :=
  ⟨down_interpretation_mono M L a b hreg hmkL hsub hrestr hrefl htrB hab,
   up_interpretation_mono M L a b hreg hmkL hsub hrestr hrefl htrB hab⟩

/-- C3 witness: the Boolean many-lattice with itself as sublattice meets
every hypothesis at the pair 0 below 1, and both interpretations are
monotone there. -/
theorem claim_C3_witness :
    (∃ va vb, boolMany.down_interpretation boolLat "0" = .ok va ∧
      boolMany.down_interpretation boolLat "1" = .ok vb ∧
      isLEb boolLat.relations va vb = true)
  ∧ (∃ va vb, boolMany.up_interpretation boolLat "0" = .ok va ∧
      boolMany.up_interpretation boolLat "1" = .ok vb ∧
      isLEb boolLat.relations va vb = true) :=
  claim_C3_amended boolMany boolLat "0" "1" (by decide) (by decide) (by decide)
    (by decide) (by decide) (by decide) (by decide)

end MLML
